import Mathlib

/-!
Verification of the data-inspection pipeline stack
(src/inspection/lib/inspection-stack.ts).

The source builds, with AWS CDK:

* five ECS task stages wired into a Step Functions chain (wf_chain,
  lines 320-418): each stage is an EcsRunTask whose container-override
  environment reads every value from the execution document through a
  JsonPath expression on the root path, and each stage is configured
  with inputPath root and resultPath DISCARD;
* a state machine sfnInspector over that chain with a 30-minute timeout
  (lines 419-422);
* a custom resource customResourceConfigureIndex (lines 216-218) whose
  handler code (lambda/ossetup, wired at createOsIndexLambda, lines
  186-209) is outside the source tree.

The chain structure, the per-stage environment mappings and the timeout
are embedded directly from the source.  Runtime behaviour that lives
outside the source file — the Step Functions execution engine, the
bootstrap handler's lifecycle logic, the design document's Context
operations and Chain Compiler — is modelled from the specification and
marked as such on each definition.
-/

/-! Section: Context: the execution document -/

/-- The execution document threaded through the state machine: a flat
record of string keys to string values, as in the sample submission of
the repository README. -/
abbrev Context := List (String × String)

/-- Lookup of a key in the execution document (first binding wins). -/
def Context.get : Context → String → Option String
  | [], _ => none
  | (k0, v) :: rest, k => if k0 = k then some v else Context.get rest k

/-- Modelled from the spec: the functional update operation of the
Context component (spec 4.1): it returns a new Context in which the key
is bound to the value; the argument Context is not modified and no key
is ever removed. -/
def Context.withKey (c : Context) (k v : String) : Context :=
  (k, v) :: c

/-! Section: The five stages and the chain, from the source -/

/-- One Step Functions task state as configured in the source: an
EcsRunTask with a container-override environment whose entries pair an
environment-variable name with the document key the source reads via
JsonPath, together with its inputPath and resultPath configuration
(inputPathDollar records inputPath set to the root path, and
resultPathDiscard records resultPath set to JsonPath.DISCARD). -/
structure EcsRunTaskState where
  name : String
  env : List (String × String)
  inputPathDollar : Bool
  resultPathDiscard : Bool
deriving DecidableEq, Repr

/-- Source lines 320-336: the first subsampler pass. -/
def runSubsamplerTaskFirstPass : EcsRunTaskState :=
  { name := "SubsamplerFirstPass"
    env := [("S3_INPUT", "S3Input"), ("S3_OUTPUT", "S3OutputFirst")]
    inputPathDollar := true
    resultPathDiscard := true }

/-- Source lines 337-353: the second subsampler pass. -/
def runSubsamplerTaskSecondPass : EcsRunTaskState :=
  { name := "SubsamplerSecondPass"
    env := [("S3_INPUT", "S3Input"), ("S3_OUTPUT", "S3OutputSecond")]
    inputPathDollar := true
    resultPathDiscard := true }

/-- Source lines 354-372: the inspection stage. -/
def runInspectTask : EcsRunTaskState :=
  { name := "RunInspectTask"
    env := [("S3_INPUT_1", "S3OutputFirst"), ("S3_INPUT_2", "S3OutputSecond"),
            ("S3_OUTPUT_1", "S3OutputSchema1"), ("S3_OUTPUT_2", "S3OutputSchema2")]
    inputPathDollar := true
    resultPathDiscard := true }

/-- Source lines 373-390: the duplicate-detection stage. -/
def runDupdetectTask : EcsRunTaskState :=
  { name := "RunDupdetectTask"
    env := [("S3_INPUT", "S3OutputSchema2"), ("S3_OUTPUT", "S3OutputDupRank"),
            ("S3_OUTPUT_DESC", "S3OutputTableDesc")]
    inputPathDollar := true
    resultPathDiscard := true }

/-- Source lines 391-411: the curation stage. -/
def runCuratorTask : EcsRunTaskState :=
  { name := "RunCuratorTask"
    env := [("S3_INPUT_DATA", "S3Input"), ("S3_INPUT_SCHEMA", "S3OutputSchema2"),
            ("S3_INPUT_DESC", "S3OutputTableDesc"), ("S3_INPUT_DQDL", "S3InputDQDL"),
            ("S3_OUTPUT_DQDL", "S3OutputDQDL"), ("TABLE_NAME", "TableName")]
    inputPathDollar := true
    resultPathDiscard := true }

/-- Source lines 412-418: the linear chain of the five stages, in the
order the source wires them with Chain.start and next. -/
def wf_chain : List EcsRunTaskState :=
  [runSubsamplerTaskFirstPass, runSubsamplerTaskSecondPass, runInspectTask,
   runDupdetectTask, runCuratorTask]

/-- A state machine: a chain definition plus a global timeout. -/
structure StateMachine where
  definition : List EcsRunTaskState
  timeoutMinutes : Nat
deriving DecidableEq

/-- Source lines 419-422: the pipeline state machine, defined by
wf_chain with a 30-minute timeout. -/
def sfnInspector : StateMachine :=
  { definition := wf_chain, timeoutMinutes := 30 }

/-! Section: Executor semantics -/

/-- Terminal report of one launched stage, as supplied by the external
task-launcher: terminal success with a reported output map and a
duration (in minutes), terminal failure with a cause and a duration, or
a launch that never returns. -/
inductive StageOutcome where
  | succeeded (outputs : List (String × String)) (duration : Nat)
  | failed (cause : String) (duration : Nat)
  | hangs
deriving DecidableEq

/-- Terminal status of a pipeline run. -/
inductive RunStatus where
  | succeeded
  | failed (stageIdx : Nat) (stageName : String) (cause : String)
  | timedOut
deriving DecidableEq

/-- An externally visible action of the Executor: launching a stage's
task with a concrete environment, or cancelling a launched task. -/
inductive Call where
  | launch (stageName : String) (env : List (String × Option String))
  | cancel (stageName : String)
deriving DecidableEq

/-- Duration charged against the global deadline by a stage outcome. -/
def durOf : StageOutcome → Nat
  | .succeeded _ d => d
  | .failed _ d => d
  | .hangs => 0

/-- The environment a stage launch receives: each configured entry's
value is read from the execution document by its JsonPath key, exactly
as the source's containerOverrides do. -/
def buildEnv (st : EcsRunTaskState) (doc : Context) : List (String × Option String) :=
  st.env.map (fun p => (p.1, Context.get doc p.2))

/-- The resultPath merge: a stage's reported outputs folded into the
document.  Every stage of the source chain sets resultPath DISCARD, so
the chain never takes this branch; it is embedded so the DISCARD
configuration is a genuine choice, not a stub. -/
def mergeOutputs (doc : Context) (outs : List (String × String)) : Context :=
  outs.foldl (fun d p => Context.withKey d p.1 p.2) doc

/-- Modelled from the spec: the Executor's sequential run of a stage
list (spec 4.4), which the source delegates to the Step Functions
engine.  Stages run one at a time in order; each launch is recorded; a
stage failing within the deadline ends the run as Failed naming that
stage, and later stages are not reached (the source chain configures no
Retry or Catch); if a stage hangs, or its terminal report would land
past the global deadline, the run ends TimedOut and a cancellation is
issued for the in-flight task; on success the next document is the
unchanged input when resultPath is DISCARD, else the merge of the
reported outputs. -/
def execFrom (oracle : Nat → StageOutcome) (deadline : Nat) :
    List EcsRunTaskState → Nat → Nat → Context → RunStatus × Context × List Call
  | [], _, _, doc => (.succeeded, doc, [])
  | st :: rest, idx, elapsed, doc =>
    let lc := Call.launch st.name (buildEnv st doc)
    match oracle idx with
    | .hangs => (.timedOut, doc, [lc, .cancel st.name])
    | .failed cause dur =>
      if deadline < elapsed + dur then (.timedOut, doc, [lc, .cancel st.name])
      else (.failed idx st.name cause, doc, [lc])
    | .succeeded outs dur =>
      if deadline < elapsed + dur then (.timedOut, doc, [lc, .cancel st.name])
      else
        let doc2 := if st.resultPathDiscard then doc else mergeOutputs doc outs
        let r := execFrom oracle deadline rest (idx + 1) (elapsed + dur) doc2
        (r.1, r.2.1, lc :: r.2.2)

/-- One pipeline run of the source state machine: the wf_chain stages
under the 30-minute timeout, from a submitted document. -/
def runPipeline (oracle : Nat → StageOutcome) (doc : Context) :
    RunStatus × Context × List Call :=
  execFrom oracle sfnInspector.timeoutMinutes sfnInspector.definition 0 0 doc

/-- The stage names launched in a call trace, in order. -/
def launchedNames (calls : List Call) : List String :=
  calls.filterMap (fun c => match c with | .launch n _ => some n | .cancel _ => none)

/-- Total duration of the next n stage outcomes starting at index idx. -/
def sumDur (oracle : Nat → StageOutcome) : Nat → Nat → Nat
  | _, 0 => 0
  | idx, n + 1 => durOf (oracle idx) + sumDur oracle (idx + 1) n

/-! Section: Bootstrap Handler -/

/-- Lifecycle state of the bootstrap resource (the search index), as
the spec's BootstrapResource data model (spec section 3). -/
inductive BState where
  | absent | creating | ready | failed | deleting
deriving DecidableEq

/-- Lifecycle events of the custom-resource protocol. -/
inductive BEvent where
  | create | update | delete
deriving DecidableEq

/-- Outcome reported to the caller of the Bootstrap Handler. -/
inductive BOutcome where
  | success | failure | inProgress
deriving DecidableEq

/-- Modelled from the spec: one synchronous step of the Bootstrap
Handler (spec 4.5).  The handler's code (lambda/ossetup, wired at
createOsIndexLambda and customResourceConfigureIndex in the source) is
not part of the source tree, so the transition function follows the
specification's words: Create on an absent (or previously failed)
resource issues the external index-creation call and lands in ready or
failed according to the external acknowledgment createOk; Create while
already ready reports Success with no side effect; Update is a no-op
success; Delete is tolerant of absence.  The Nat component counts the
external index-creation calls issued by the step. -/
def bootstrapApply (s : BState) (e : BEvent) (createOk : Bool) :
    BOutcome × BState × Nat :=
  match e, s with
  | .create, .ready => (.success, .ready, 0)
  | .create, .creating => (.inProgress, .creating, 0)
  | .create, .deleting => (.failure, .deleting, 0)
  | .create, .absent =>
    if createOk then (.success, .ready, 1) else (.failure, .failed, 1)
  | .create, .failed =>
    if createOk then (.success, .ready, 1) else (.failure, .failed, 1)
  | .update, s0 => (.success, s0, 0)
  | .delete, _ => (.success, .absent, 0)

/-- A whole lifetime of the bootstrap resource: the handler applied to a
sequence of events, each paired with the external acknowledgment its
creation call (if any) would receive.  Returns the final state, the
outcomes reported in order, and the total count of external
index-creation calls. -/
def bootstrapRun (s : BState) : List (BEvent × Bool) → BState × List BOutcome × Nat
  | [] => (s, [], 0)
  | (e, ok) :: evts =>
    let step := bootstrapApply s e ok
    let rest := bootstrapRun step.2.1 evts
    (rest.1, step.1 :: rest.2.1, step.2.2 + rest.2.2)

/-! Section: Single-flight concurrency model for the bootstrap -/

/-- Shared state of two callers concurrently invoking the Bootstrap
Handler for the same resource identity: the resource state, whether an
operation is in flight, the callers attached to it, each caller's
observed outcome, and the count of external creation calls. -/
structure ConcState where
  res : BState
  inFlight : Bool
  waiters : List Nat
  out1 : Option BOutcome
  out2 : Option BOutcome
  calls : Nat
deriving DecidableEq

/-- An event of the concurrent bootstrap system: a caller's Create
invocation arriving, or the in-flight operation completing. -/
inductive ConcAction where
  | arrive (caller : Nat)
  | complete
deriving DecidableEq

/-- Record an outcome observed by caller 1 or caller 2. -/
def setOutcome (st : ConcState) (caller : Nat) (o : BOutcome) : ConcState :=
  if caller = 1 then { st with out1 := some o } else { st with out2 := some o }

/-- Modelled from the spec: single-flight serialization of concurrent
Create invocations (spec 4.5 and design note in spec 9).  A Create
arriving while the resource is ready observes Success immediately; a
Create arriving while an operation is in flight attaches as a waiter of
that operation; otherwise it starts the operation, issuing the single
external creation call; completion of the in-flight operation moves the
resource to ready or failed according to the external acknowledgment ok
and delivers the same outcome to every attached waiter. -/
def concStep (ok : Bool) (st : ConcState) : ConcAction → ConcState
  | .arrive c =>
    match st.res, st.inFlight with
    | .ready, _ => setOutcome st c .success
    | _, true => { st with waiters := c :: st.waiters }
    | _, false =>
      { st with inFlight := true, waiters := [c], calls := st.calls + 1 }
  | .complete =>
    if st.inFlight then
      let o := if ok then BOutcome.success else BOutcome.failure
      let st1 := { st with res := if ok then BState.ready else BState.failed,
                           inFlight := false }
      st.waiters.foldl (fun acc c => setOutcome acc c o) st1
    else st

/-- Initial concurrent state: resource absent, nothing in flight. -/
def concInit : ConcState :=
  { res := .absent, inFlight := false, waiters := [],
    out1 := none, out2 := none, calls := 0 }

/-- Run a schedule of concurrent actions from the initial state. -/
def concRun (ok : Bool) (sched : List ConcAction) : ConcState :=
  sched.foldl (concStep ok) concInit

/-! Section: Chain Compiler -/

/-- Modelled from the spec: a StageDefinition of the registry (spec
section 3): a stage name with its declared required input keys and
produced output keys.  The source's task definitions carry no such
declarations (every environment value, output locations included, is
read from the document), so the registry exists only in the
specification. -/
structure StageDefinition where
  name : String
  requiredKeys : List String
  outputKeys : List String
deriving DecidableEq

/-- Validation errors of the Chain Compiler. -/
inductive CompileError where
  | missingInput (stage : String) (key : String)
deriving DecidableEq

/-- Modelled from the spec: the Chain Compiler (spec 4.3).  The source
contains no compiler — wf_chain is a fixed, hand-ordered chain — so the
algorithm is taken from the specification's words: walk the requested
stage order with a running list of available keys seeded from the
initial Context's keys; fail with MissingInput on the first required
key that is not available; otherwise add the stage's declared output
keys and continue.  The compiler is a pure function: it issues no
external call. -/
def compileChain : List StageDefinition → List String → Except CompileError (List StageDefinition)
  | [], _ => .ok []
  | s :: rest, avail =>
    match s.requiredKeys.find? (fun k => decide (k ∉ avail)) with
    | some k => .error (.missingInput s.name k)
    | none =>
      match compileChain rest (avail ++ s.outputKeys) with
      | .error e => .error e
      | .ok plan => .ok (s :: plan)

/-- The keys available after walking a stage prefix: the initial keys
followed by every walked stage's declared output keys. -/
def availableKeys (init : List String) (order : List StageDefinition) : List String :=
  order.foldl (fun acc s => acc ++ s.outputKeys) init

/-- The walking condition of the claim: at every position of the order,
each required input key of the stage there is available, the available
keys being the initial keys plus the output keys of all earlier
stages. -/
def chainWellFormed (order : List StageDefinition) (init : List String) : Prop :=
  ∀ i, ∀ h : i < order.length, ∀ k ∈ (order.get ⟨i, h⟩).requiredKeys,
    k ∈ availableKeys init (order.take i)

instance (order : List StageDefinition) (init : List String) :
    Decidable (chainWellFormed order init) :=
  Nat.decidableBallLT order.length _

/-- Modelled from the spec: the five-stage registry of the plan
(spec sections 2 and 8), giving each stage of wf_chain its declared
required input keys and produced output keys. -/
def fiveStagePlan : List StageDefinition :=
  [⟨"SubsamplerFirstPass", ["S3Input"], ["S3OutputFirst"]⟩,
   ⟨"SubsamplerSecondPass", ["S3Input"], ["S3OutputSecond"]⟩,
   ⟨"RunInspectTask", ["S3OutputFirst", "S3OutputSecond"],
      ["S3OutputSchema1", "S3OutputSchema2"]⟩,
   ⟨"RunDupdetectTask", ["S3OutputSchema2"],
      ["S3OutputDupRank", "S3OutputTableDesc"]⟩,
   ⟨"RunCuratorTask",
      ["S3Input", "S3OutputSchema2", "S3OutputTableDesc", "S3InputDQDL", "TableName"],
      ["S3OutputDQDL"]⟩]

/-- Modelled from the spec: the declared produced output keys of each
stage of the five-stage plan, read off the registry. -/
def declaredOutputKeys (stage : String) : List String :=
  ((fiveStagePlan.find? (fun s => s.name = stage)).map
    (fun s => s.outputKeys)).getD []

/-- A one-stage ordering consisting of the inspection stage alone, used
to exercise the compiler's rejection path. -/
def inspectOnlyOrder : List StageDefinition := (fiveStagePlan.drop 2).take 1

/-! Section: Concrete runs -/

/-- The initial Context of the end-to-end scenario (spec section 8). -/
def c6Init : Context :=
  [("S3Input", "a"), ("S3OutputFirst", ""), ("S3OutputSecond", ""),
   ("S3OutputSchema1", ""), ("S3OutputSchema2", ""), ("S3OutputDupRank", ""),
   ("S3OutputTableDesc", ""), ("TableName", "mytable"), ("S3InputDQDL", "x"),
   ("S3OutputDQDL", "")]

/-- The key set of the end-to-end initial Context. -/
def c6Keys : List String := c6Init.map Prod.fst

/-- A launcher behaviour where every stage reports terminal success in
one minute with an empty output map. -/
def oracleEmptyOutputs : Nat → StageOutcome := fun _ => .succeeded [] 1

/-- A launcher behaviour where every stage reports terminal success in
one minute, the first stage even reporting its declared output key
produced. -/
def oracleProducing : Nat → StageOutcome := fun i =>
  if i = 0 then .succeeded [("S3OutputFirst", "s3out1")] 1 else .succeeded [] 1

/-- A launcher behaviour where the third stage fails and every other
stage succeeds in one minute. -/
def oracleFailThird : Nat → StageOutcome := fun i =>
  if i = 2 then .failed "TaskFailed" 1 else .succeeded [] 1

/-- A launcher behaviour where the third stage's launch never returns
and every other stage succeeds in one minute. -/
def oracleHangThird : Nat → StageOutcome := fun i =>
  if i = 2 then .hangs else .succeeded [] 1

/-- Submission of a pipeline run.  The source defines the state machine
(sfnInspector) from wf_chain alone: no construct conditions the start of
an execution on the state of the bootstrap custom resource, so a
submission starts the chain at stage 0 whatever that state is. -/
def submitAndRun (_bs : BState) (oracle : Nat → StageOutcome) (doc : Context) :
    RunStatus × Context × List Call :=
  runPipeline oracle doc

/-! Section: Claim theorems -/

/-- Claim C2: if the stage at position j of a plan fails (within the
deadline, all earlier stages having succeeded), the Executor ends the
run as Failed naming that stage and its cause, and the launched stages
are exactly the stages up to and including j — no later stage is ever
launched. -/
theorem exec_fail_fast
    (stages : List EcsRunTaskState) (oracle : Nat → StageOutcome)
    (deadline idx elapsed : Nat) (doc : Context)
    (j : Nat) (hj : j < stages.length) (cause : String) (dur : Nat)
    (hsucc : ∀ i, i < j → ∃ outs d, oracle (idx + i) = .succeeded outs d)
    (hfail : oracle (idx + j) = .failed cause dur)
    (hdl : elapsed + sumDur oracle idx (j + 1) ≤ deadline) :
    (execFrom oracle deadline stages idx elapsed doc).1
        = .failed (idx + j) ((stages.get ⟨j, hj⟩).name) cause ∧
    launchedNames (execFrom oracle deadline stages idx elapsed doc).2.2
        = (stages.take (j + 1)).map (fun s => s.name) := by
  induction stages generalizing j idx elapsed doc with
  | nil => exact absurd hj (Nat.not_lt_zero j)
  | cons st rest ih =>
    cases j with
    | zero =>
      have h0 : oracle idx = .failed cause dur := by simpa using hfail
      have hs : sumDur oracle idx (0 + 1) = dur := by simp [sumDur, h0, durOf]
      rw [hs] at hdl
      simp only [execFrom, h0]
      rw [if_neg (by omega)]
      simp [launchedNames]
    | succ j' =>
      obtain ⟨outs, d, h0⟩ := hsucc 0 (Nat.succ_pos j')
      have h0' : oracle idx = .succeeded outs d := by simpa using h0
      have hs : sumDur oracle idx (j' + 1 + 1)
          = d + sumDur oracle (idx + 1) (j' + 1) := by
        simp [sumDur, h0', durOf]
      rw [hs] at hdl
      have hj' : j' < rest.length := Nat.lt_of_succ_lt_succ (by simpa using hj)
      have ihh := ih (idx + 1) (elapsed + d)
        (if st.resultPathDiscard then doc else mergeOutputs doc outs) j' hj'
        (fun i hi => by
          obtain ⟨o, dd, he⟩ := hsucc (i + 1) (Nat.succ_lt_succ hi)
          exact ⟨o, dd, by rw [show idx + 1 + i = idx + (i + 1) by omega]; exact he⟩)
        (by rw [show idx + 1 + j' = idx + (j' + 1) by omega]; exact hfail)
        (by omega)
      simp only [execFrom, h0']
      rw [if_neg (by omega)]
      refine ⟨?_, ?_⟩
      · rw [show idx + (j' + 1) = idx + 1 + j' by omega]
        exact ihh.1
      · simp only [launchedNames, List.filterMap_cons] at ihh ⊢
        simp [ihh.2, launchedNames]

/-- Claim C2 witness: stage 3 of the five-stage plan fails, stages 4 and
5 are never launched, and the terminal status is Failed naming stage
3. -/
theorem exec_fail_fast_witness :
    (execFrom oracleFailThird 30 wf_chain 0 0 c6Init).1
        = .failed 2 "RunInspectTask" "TaskFailed" ∧
    launchedNames (execFrom oracleFailThird 30 wf_chain 0 0 c6Init).2.2
        = ["SubsamplerFirstPass", "SubsamplerSecondPass", "RunInspectTask"] := by
  have h := exec_fail_fast wf_chain oracleFailThird 30 0 0 c6Init 2 (by decide)
    "TaskFailed" 1
    (by intro i hi; interval_cases i <;> exact ⟨[], 1, rfl⟩)
    rfl (by decide)
  simpa using h

/-- If the run reaches a stage within the deadline and that stage either
hangs or would report past the deadline, the run times out and a
cancellation is issued for that stage's task. -/
theorem execFrom_timeout_cancels
    (stages : List EcsRunTaskState) (oracle : Nat → StageOutcome)
    (deadline idx elapsed : Nat) (doc : Context)
    (j : Nat) (hj : j < stages.length)
    (hsucc : ∀ i, i < j → ∃ outs d, oracle (idx + i) = .succeeded outs d)
    (hreach : elapsed + sumDur oracle idx j ≤ deadline)
    (hover : oracle (idx + j) = .hangs ∨
      deadline < elapsed + sumDur oracle idx (j + 1)) :
    (execFrom oracle deadline stages idx elapsed doc).1 = .timedOut ∧
    Call.cancel ((stages.get ⟨j, hj⟩).name)
        ∈ (execFrom oracle deadline stages idx elapsed doc).2.2 := by
  induction stages generalizing j idx elapsed doc with
  | nil => exact absurd hj (Nat.not_lt_zero j)
  | cons st rest ih =>
    cases j with
    | zero =>
      rcases hover with h0 | hlt
      · have h0' : oracle idx = .hangs := by simpa using h0
        simp [execFrom, h0']
      · cases h0 : oracle idx with
        | hangs => simp [execFrom, h0]
        | succeeded outs d =>
          have hs : sumDur oracle idx (0 + 1) = d := by simp [sumDur, h0, durOf]
          rw [hs] at hlt
          simp only [execFrom, h0]
          rw [if_pos (by omega)]
          simp
        | failed c d =>
          have hs : sumDur oracle idx (0 + 1) = d := by simp [sumDur, h0, durOf]
          rw [hs] at hlt
          simp only [execFrom, h0]
          rw [if_pos (by omega)]
          simp
    | succ j' =>
      obtain ⟨outs, d, h0⟩ := hsucc 0 (Nat.succ_pos j')
      have h0' : oracle idx = .succeeded outs d := by simpa using h0
      have hs : sumDur oracle idx (j' + 1)
          = d + sumDur oracle (idx + 1) j' := by
        simp [sumDur, h0', durOf]
      have hs2 : sumDur oracle idx (j' + 1 + 1)
          = d + sumDur oracle (idx + 1) (j' + 1) := by
        simp [sumDur, h0', durOf]
      rw [hs] at hreach
      have hj' : j' < rest.length := Nat.lt_of_succ_lt_succ (by simpa using hj)
      have ihh := ih (idx + 1) (elapsed + d)
        (if st.resultPathDiscard then doc else mergeOutputs doc outs) j' hj'
        (fun i hi => by
          obtain ⟨o, dd, he⟩ := hsucc (i + 1) (Nat.succ_lt_succ hi)
          exact ⟨o, dd, by rw [show idx + 1 + i = idx + (i + 1) by omega]; exact he⟩)
        (by omega)
        (by
          rcases hover with hh | hlt
          · exact Or.inl (by rw [show idx + 1 + j' = idx + (j' + 1) by omega]; exact hh)
          · rw [hs2] at hlt
            exact Or.inr (by omega))
      simp only [execFrom, h0']
      rw [if_neg (by omega)]
      exact ⟨ihh.1, List.mem_cons_of_mem _ ihh.2⟩

/-- Claim C4: if a run reaches a stage within the global deadline and
the elapsed wall-clock time then exceeds the deadline — the stage's
launch never returns, or its terminal report would land past the
deadline — the run transitions to TimedOut regardless of which stage is
active, a cancellation is issued for that in-flight launched task, and
TimedOut is distinct from every stage-Failure status. -/
theorem exec_global_deadline
    (stages : List EcsRunTaskState) (oracle : Nat → StageOutcome)
    (deadline idx elapsed : Nat) (doc : Context)
    (j : Nat) (hj : j < stages.length)
    (hsucc : ∀ i, i < j → ∃ outs d, oracle (idx + i) = .succeeded outs d)
    (hreach : elapsed + sumDur oracle idx j ≤ deadline)
    (hover : oracle (idx + j) = .hangs ∨
      deadline < elapsed + sumDur oracle idx (j + 1)) :
    (execFrom oracle deadline stages idx elapsed doc).1 = .timedOut ∧
    Call.cancel ((stages.get ⟨j, hj⟩).name)
        ∈ (execFrom oracle deadline stages idx elapsed doc).2.2 ∧
    (∀ i n c, RunStatus.timedOut ≠ RunStatus.failed i n c) := by
  have h := execFrom_timeout_cancels stages oracle deadline idx elapsed doc j hj
    hsucc hreach hover
  exact ⟨h.1, h.2, fun i n c hc => by cases hc⟩

/-- Claim C4 witness: under the source state machine's 30-minute
deadline, a third stage whose launch never returns drives the run to
TimedOut with a cancellation for that stage's task. -/
theorem exec_global_deadline_witness :
    (execFrom oracleHangThird 30 wf_chain 0 0 c6Init).1 = .timedOut ∧
    Call.cancel "RunInspectTask"
        ∈ (execFrom oracleHangThird 30 wf_chain 0 0 c6Init).2.2 ∧
    (∀ i n c, RunStatus.timedOut ≠ RunStatus.failed i n c) := by
  have h := exec_global_deadline wf_chain oracleHangThird 30 0 0 c6Init 2 (by decide)
    (by intro i hi; interval_cases i <;> exact ⟨[], 1, rfl⟩)
    (by decide) (Or.inl rfl)
  simpa using h

/-- On a stage list whose every member discards its result, the
execution document is invariant: the final document is the initial one
and every launch environment is built from the initial document. -/
theorem execFrom_discard_invariant
    (stages : List EcsRunTaskState) (oracle : Nat → StageOutcome)
    (deadline idx elapsed : Nat) (doc : Context)
    (hd : ∀ st ∈ stages, st.resultPathDiscard = true) :
    (execFrom oracle deadline stages idx elapsed doc).2.1 = doc ∧
    (∀ n e, Call.launch n e ∈ (execFrom oracle deadline stages idx elapsed doc).2.2 →
      ∃ st, st ∈ stages ∧ n = st.name ∧ e = buildEnv st doc) := by
  induction stages generalizing idx elapsed with
  | nil => simp [execFrom]
  | cons st rest ih =>
    have hst : st.resultPathDiscard = true := hd st (List.mem_cons_self _ _)
    have hrest : ∀ s ∈ rest, s.resultPathDiscard = true :=
      fun s hs => hd s (List.mem_cons_of_mem _ hs)
    cases h0 : oracle idx with
    | hangs =>
      constructor
      · simp [execFrom, h0]
      · intro n e hm
        simp only [execFrom, h0, List.mem_cons, List.mem_singleton] at hm
        rcases hm with hm | hm | hm
        · obtain ⟨hn, he⟩ := Call.launch.inj hm
          exact ⟨st, List.mem_cons_self _ _, hn, he⟩
        · cases hm
        · cases hm
    | failed c d =>
      by_cases hlt : deadline < elapsed + d
      · constructor
        · simp [execFrom, h0, if_pos hlt]
        · intro n e hm
          simp only [execFrom, h0, if_pos hlt, List.mem_cons, List.mem_singleton] at hm
          rcases hm with hm | hm | hm
          · obtain ⟨hn, he⟩ := Call.launch.inj hm
            exact ⟨st, List.mem_cons_self _ _, hn, he⟩
          · cases hm
          · cases hm
      · constructor
        · simp [execFrom, h0, if_neg hlt]
        · intro n e hm
          simp only [execFrom, h0, if_neg hlt, List.mem_singleton] at hm
          obtain ⟨hn, he⟩ := Call.launch.inj hm
          exact ⟨st, List.mem_cons_self _ _, hn, he⟩
    | succeeded outs d =>
      by_cases hlt : deadline < elapsed + d
      · constructor
        · simp [execFrom, h0, if_pos hlt]
        · intro n e hm
          simp only [execFrom, h0, if_pos hlt, List.mem_cons, List.mem_singleton] at hm
          rcases hm with hm | hm | hm
          · obtain ⟨hn, he⟩ := Call.launch.inj hm
            exact ⟨st, List.mem_cons_self _ _, hn, he⟩
          · cases hm
          · cases hm
      · have ihh := ih (idx + 1) (elapsed + d) hrest
        constructor
        · simp only [execFrom, h0, if_neg hlt, hst, if_true]
          exact ihh.1
        · intro n e hm
          simp only [execFrom, h0, if_neg hlt, hst, if_true, List.mem_cons] at hm
          rcases hm with hm | hm
          · obtain ⟨hn, he⟩ := Call.launch.inj hm
            exact ⟨st, List.mem_cons_self _ _, hn, he⟩
          · obtain ⟨s, hs, hn, he⟩ := ihh.2 n e hm
            exact ⟨s, List.mem_cons_of_mem _ hs, hn, he⟩

/-- Claim C10: in the implemented five-stage chain every stage is
configured with inputPath on the root document and resultPath DISCARD,
so the document each stage invocation reads — including every stage
after the first — is exactly the caller-submitted document: every launch
environment is built from the initial submission, the final document
equals the initial one, and no stage's reported outputs are ever merged
between stages. -/
theorem wf_chain_doc_unchanged
    (oracle : Nat → StageOutcome) (deadline idx elapsed : Nat) (doc : Context) :
    (∀ st ∈ wf_chain, st.inputPathDollar = true ∧ st.resultPathDiscard = true) ∧
    (execFrom oracle deadline wf_chain idx elapsed doc).2.1 = doc ∧
    (∀ n e, Call.launch n e ∈ (execFrom oracle deadline wf_chain idx elapsed doc).2.2 →
      ∃ st, st ∈ wf_chain ∧ n = st.name ∧ e = buildEnv st doc) := by
  have h := execFrom_discard_invariant wf_chain oracle deadline idx elapsed doc
    (by decide)
  exact ⟨by decide, h.1, h.2⟩

/-- Claim C10 witness: on a concrete all-success run from the end-to-end
scenario's submission, the final document equals the submission and the
curator's launch environment is built from the submission. -/
theorem wf_chain_doc_unchanged_witness :
    (execFrom oracleProducing 30 wf_chain 0 0 c6Init).2.1 = c6Init ∧
    (∃ st, st ∈ wf_chain ∧ "RunCuratorTask" = st.name ∧
      buildEnv runCuratorTask c6Init = buildEnv st c6Init) := by
  have h := wf_chain_doc_unchanged oracleProducing 30 0 0 c6Init
  exact ⟨h.2.1, h.2.2 "RunCuratorTask" (buildEnv runCuratorTask c6Init) (by decide)⟩

/-- A run over discarding stages in which every stage reports terminal
success within the deadline ends Succeeded with the document unchanged,
launching every stage, whatever output maps the stages report. -/
theorem execFrom_all_succeed
    (stages : List EcsRunTaskState) (oracle : Nat → StageOutcome)
    (deadline idx elapsed : Nat) (doc : Context)
    (hdisc : ∀ st ∈ stages, st.resultPathDiscard = true)
    (hsucc : ∀ i, i < stages.length → ∃ outs d, oracle (idx + i) = .succeeded outs d)
    (hdl : elapsed + sumDur oracle idx stages.length ≤ deadline) :
    execFrom oracle deadline stages idx elapsed doc
      = (.succeeded, doc,
         stages.map (fun st => Call.launch st.name (buildEnv st doc))) := by
  induction stages generalizing idx elapsed with
  | nil => simp [execFrom]
  | cons st rest ih =>
    obtain ⟨outs, d, h0⟩ := hsucc 0 (Nat.succ_pos _)
    have h0' : oracle idx = .succeeded outs d := by simpa using h0
    have hs : sumDur oracle idx (st :: rest).length
        = d + sumDur oracle (idx + 1) rest.length := by
      simp [sumDur, h0', durOf]
    rw [hs] at hdl
    have hst : st.resultPathDiscard = true := hdisc st (List.mem_cons_self _ _)
    have ihh := ih (idx + 1) (elapsed + d)
      (fun s hs0 => hdisc s (List.mem_cons_of_mem _ hs0))
      (fun i hi => by
        obtain ⟨o, dd, he⟩ := hsucc (i + 1) (Nat.succ_lt_succ hi)
        exact ⟨o, dd, by rw [show idx + 1 + i = idx + (i + 1) by omega]; exact he⟩)
      (by omega)
    simp only [execFrom, h0']
    rw [if_neg (by omega)]
    simp only [hst, if_true, ihh, List.map_cons]

/-- Claim C5 counterexample: on the end-to-end submission, every stage
reports terminal success with an empty output map — in particular, stage
SubsamplerFirstPass omits its declared output key S3OutputFirst — yet
the run's terminal status is Succeeded and all five stages are launched:
the Executor enforces no producer contract and produces no
ContractViolation failure. -/
theorem contract_violation_not_enforced :
    "S3OutputFirst" ∈ declaredOutputKeys "SubsamplerFirstPass" ∧
    oracleEmptyOutputs 0 = .succeeded [] 1 ∧
    ("S3OutputFirst" ∈ ([] : List (String × String)).map Prod.fst) = False ∧
    (runPipeline oracleEmptyOutputs c6Init).1 = .succeeded ∧
    launchedNames (runPipeline oracleEmptyOutputs c6Init).2.2
      = wf_chain.map (fun s => s.name) := by
  refine ⟨by decide, rfl, by simp, by decide, by decide⟩

/-- Claim C5 (amended): the Executor performs no producer-contract
check: each stage's reported result is discarded (resultPath DISCARD),
so whenever every stage's launch reports terminal Succeeded within the
deadline, the run is marked Succeeded and every stage is launched,
regardless of which output keys the stages report; no ContractViolation
outcome exists. -/
theorem no_producer_contract_check
    (oracle : Nat → StageOutcome) (doc : Context)
    (hsucc : ∀ i, i < wf_chain.length → ∃ outs d, oracle i = .succeeded outs d)
    (hdl : sumDur oracle 0 wf_chain.length ≤ sfnInspector.timeoutMinutes) :
    (runPipeline oracle doc).1 = .succeeded ∧
    launchedNames (runPipeline oracle doc).2.2
      = wf_chain.map (fun s => s.name) := by
  have h := execFrom_all_succeed wf_chain oracle sfnInspector.timeoutMinutes 0 0 doc
    (by decide) (fun i hi => by simpa using hsucc i hi) (by simpa using hdl)
  unfold runPipeline
  rw [show sfnInspector.definition = wf_chain from rfl, h]
  constructor
  · rfl
  · simp [launchedNames, List.filterMap_map]
    rfl

/-- Claim C5 witness for the amended statement: the all-success,
empty-output run is marked Succeeded with all five stages launched. -/
theorem no_producer_contract_check_witness :
    (runPipeline oracleEmptyOutputs c6Init).1 = .succeeded ∧
    launchedNames (runPipeline oracleEmptyOutputs c6Init).2.2
      = wf_chain.map (fun s => s.name) :=
  no_producer_contract_check oracleEmptyOutputs c6Init
    (fun i hi => ⟨[], 1, rfl⟩) (by decide)

/-- Claim C6 counterexample: running the end-to-end submission through
the five-stage plan with every stage succeeding (the first even
reporting its declared output key produced) ends Succeeded, but the
terminal Context still maps the initially-empty output key
S3OutputFirst to the empty string: stage outputs are never written back
into the Context. -/
theorem end_to_end_outputs_not_written_back :
    (runPipeline oracleProducing c6Init).1 = .succeeded ∧
    Context.get (runPipeline oracleProducing c6Init).2.1 "S3OutputFirst"
      = some "" := by
  refine ⟨by decide, by decide⟩

/-- Claim C6 (amended): on the end-to-end submission, if every stage
reports terminal success within the deadline the run's terminal status
is Succeeded and the terminal Context equals the initial submission
unchanged — each initially-empty output key keeps the empty string in
the Context (the stages write to the external locations those keys
name, never back into the Context). -/
theorem end_to_end_succeeds_context_unchanged
    (oracle : Nat → StageOutcome)
    (hsucc : ∀ i, i < wf_chain.length → ∃ outs d, oracle i = .succeeded outs d)
    (hdl : sumDur oracle 0 wf_chain.length ≤ sfnInspector.timeoutMinutes) :
    (runPipeline oracle c6Init).1 = .succeeded ∧
    (runPipeline oracle c6Init).2.1 = c6Init ∧
    Context.get (runPipeline oracle c6Init).2.1 "S3OutputFirst" = some "" := by
  have h := execFrom_all_succeed wf_chain oracle sfnInspector.timeoutMinutes 0 0 c6Init
    (by decide) (fun i hi => by simpa using hsucc i hi) (by simpa using hdl)
  unfold runPipeline
  rw [show sfnInspector.definition = wf_chain from rfl, h]
  exact ⟨rfl, rfl, by decide⟩

/-- Claim C6 witness for the amended statement, at the all-success
launcher behaviour that reports the first stage's declared output. -/
theorem end_to_end_succeeds_context_unchanged_witness :
    (runPipeline oracleProducing c6Init).1 = .succeeded ∧
    (runPipeline oracleProducing c6Init).2.1 = c6Init ∧
    Context.get (runPipeline oracleProducing c6Init).2.1 "S3OutputFirst"
      = some "" :=
  end_to_end_succeeds_context_unchanged oracleProducing
    (fun i hi => by
      unfold oracleProducing
      by_cases h : i = 0 <;> simp [h])
    (by decide)

/-- Claim C8 counterexample: with the bootstrap resource in the
non-ready state failed, a submission of the end-to-end run through the
plan — which includes the dependent stage RunDupdetectTask — is not
rejected: its first stage is launched, every stage is launched, and the
run even completes Succeeded; no ResourceNotReady rejection exists. -/
theorem submission_not_gated_on_bootstrap :
    runDupdetectTask ∈ wf_chain ∧
    launchedNames (submitAndRun BState.failed oracleProducing c6Init).2.2
      = wf_chain.map (fun s => s.name) ∧
    (submitAndRun BState.failed oracleProducing c6Init).1 = .succeeded := by
  refine ⟨by decide, by decide, by decide⟩

/-- Claim C8 (amended): submission is not gated on the bootstrap
resource: the source defines the state machine from wf_chain alone, so
a submitted run behaves identically for every bootstrap state and its
first stage is launched unconditionally; a non-ready index can surface
only as a mid-chain failure of a dependent stage, never as a
submission-time rejection. -/
theorem submission_ignores_bootstrap_state
    (bs bs' : BState) (oracle : Nat → StageOutcome) (doc : Context) :
    submitAndRun bs oracle doc = submitAndRun bs' oracle doc ∧
    (submitAndRun bs oracle doc).2.2.head?
      = some (Call.launch "SubsamplerFirstPass"
          (buildEnv runSubsamplerTaskFirstPass doc)) := by
  refine ⟨rfl, ?_⟩
  show (execFrom oracle 30 wf_chain 0 0 doc).2.2.head? = _
  rw [show wf_chain = runSubsamplerTaskFirstPass ::
    [runSubsamplerTaskSecondPass, runInspectTask, runDupdetectTask,
     runCuratorTask] from rfl]
  cases h0 : oracle 0 with
  | hangs => simp only [execFrom, h0]; rfl
  | failed c d =>
    simp only [execFrom, h0]
    by_cases hlt : 30 < 0 + d
    · rw [if_pos hlt]; rfl
    · rw [if_neg hlt]; rfl
  | succeeded outs d =>
    simp only [execFrom, h0]
    by_cases hlt : 30 < 0 + d
    · rw [if_pos hlt]; rfl
    · rw [if_neg hlt]; rfl

/-- Claim C1: for every requested stage ordering and initial key set,
the Chain Compiler produces a plan exactly when, walking the ordering
with an available-key set seeded from the initial Context and augmented
by each stage's declared output keys, every stage's required input keys
are available when that stage is reached; and whenever compilation fails
with MissingInput naming a stage and key, that stage requires that key
at a position where it is neither produced upstream nor initially
present.  (The compiler is a pure function, so a failed compilation
performs no external call.) -/
theorem compileChain_sound_complete
    (order : List StageDefinition) (init : List String) :
    ((∃ plan, compileChain order init = .ok plan) ↔ chainWellFormed order init) ∧
    (∀ s k, compileChain order init = .error (.missingInput s k) →
      ∃ i, ∃ h : i < order.length, (order.get ⟨i, h⟩).name = s ∧
        k ∈ (order.get ⟨i, h⟩).requiredKeys ∧
        k ∉ availableKeys init (order.take i)) := by
  induction order generalizing init with
  | nil =>
    refine ⟨⟨fun _ i h => absurd h (Nat.not_lt_zero i), fun _ => ⟨[], rfl⟩⟩, ?_⟩
    intro s k hc
    simp [compileChain] at hc
  | cons s0 rest ih =>
    cases hf : s0.requiredKeys.find? (fun k => decide (k ∉ init)) with
    | some k0 =>
      have hc : compileChain (s0 :: rest) init = .error (.missingInput s0.name k0) := by
        unfold compileChain
        rw [hf]
      have hk0mem : k0 ∈ s0.requiredKeys := List.mem_of_find?_eq_some hf
      have hk0na : k0 ∉ init := by
        have hp := List.find?_some hf
        simpa using hp
      constructor
      · constructor
        · rintro ⟨plan, hp⟩
          rw [hc] at hp
          cases hp
        · intro hwf
          exfalso
          exact hk0na (hwf 0 (Nat.succ_pos _) k0 hk0mem)
      · intro s k he
        rw [hc] at he
        simp only [Except.error.injEq, CompileError.missingInput.injEq] at he
        refine ⟨0, Nat.succ_pos _, ?_, ?_, ?_⟩
        · exact he.1
        · rw [← he.2]; exact hk0mem
        · rw [← he.2]; exact hk0na
    | none =>
      have hall : ∀ k ∈ s0.requiredKeys, k ∈ init := by
        intro k hk
        have hp := List.find?_eq_none.mp hf k hk
        simpa using hp
      have hwfiff : chainWellFormed (s0 :: rest) init ↔
          chainWellFormed rest (init ++ s0.outputKeys) := by
        constructor
        · intro hwf i h k hk
          exact hwf (i + 1) (Nat.succ_lt_succ h) k hk
        · intro hwf i h k hk
          cases i with
          | zero => exact hall k hk
          | succ i' => exact hwf i' (Nat.lt_of_succ_lt_succ h) k hk
      cases hrec : compileChain rest (init ++ s0.outputKeys) with
      | ok plan =>
        have hc : compileChain (s0 :: rest) init = .ok (s0 :: plan) := by
          unfold compileChain
          rw [hf, hrec]
        refine ⟨⟨fun _ => hwfiff.mpr ((ih (init ++ s0.outputKeys)).1.mp ⟨plan, hrec⟩),
          fun _ => ⟨s0 :: plan, hc⟩⟩, ?_⟩
        intro s k he
        rw [hc] at he
        cases he
      | error e =>
        have hc : compileChain (s0 :: rest) init = .error e := by
          unfold compileChain
          rw [hf, hrec]
        constructor
        · constructor
          · rintro ⟨plan, hp⟩
            rw [hc] at hp
            cases hp
          · intro hwf
            exfalso
            obtain ⟨plan, hp⟩ := (ih (init ++ s0.outputKeys)).1.mpr (hwfiff.mp hwf)
            rw [hp] at hrec
            cases hrec
        · intro s k he
          rw [hc] at he
          cases e with
          | missingInput s1 k1 =>
            simp only [Except.error.injEq, CompileError.missingInput.injEq] at he
            obtain ⟨hs1, hk1⟩ := he
            subst hs1
            subst hk1
            obtain ⟨i, h, hn, hk, hna⟩ := (ih (init ++ s0.outputKeys)).2 s1 k1 hrec
            exact ⟨i + 1, Nat.succ_lt_succ h, hn, hk, hna⟩

/-- Claim C1 witness: the five-stage plan compiles from the end-to-end
submission's key set, and the ordering consisting of the inspection
stage alone over an initial Context holding only S3Input is rejected
with MissingInput naming that stage and the key S3OutputFirst, which is
neither produced upstream nor initially present. -/
theorem compileChain_sound_complete_witness :
    chainWellFormed fiveStagePlan c6Keys ∧
    (∃ plan, compileChain fiveStagePlan c6Keys = .ok plan) ∧
    (∃ i, ∃ h : i < inspectOnlyOrder.length,
      (inspectOnlyOrder.get ⟨i, h⟩).name = "RunInspectTask" ∧
      "S3OutputFirst" ∈ (inspectOnlyOrder.get ⟨i, h⟩).requiredKeys ∧
      "S3OutputFirst" ∉ availableKeys ["S3Input"] (inspectOnlyOrder.take i)) := by
  refine ⟨by decide, ?_, ?_⟩
  · exact (compileChain_sound_complete fiveStagePlan c6Keys).1.mpr (by decide)
  · exact (compileChain_sound_complete inspectOnlyOrder ["S3Input"]).2
      "RunInspectTask" "S3OutputFirst" rfl

/-- A bootstrap lifetime whose every event is a Create leaves a ready
resource ready, reports Success each time and issues no further
external creation call. -/
theorem bootstrapRun_ready_creates
    (evts : List (BEvent × Bool)) (hok : ∀ p ∈ evts, p.1 = BEvent.create) :
    bootstrapRun BState.ready evts
      = (BState.ready, List.replicate evts.length BOutcome.success, 0) := by
  induction evts with
  | nil => rfl
  | cons p rest ih =>
    obtain ⟨e, ok⟩ := p
    have he : e = BEvent.create := hok (e, ok) (List.mem_cons_self _ _)
    subst he
    have ihh := ih (fun q hq => hok q (List.mem_cons_of_mem _ hq))
    simp [bootstrapRun, bootstrapApply, ihh, List.replicate]

/-- The lifetime run composes over concatenation of event lists. -/
theorem bootstrapRun_append (s : BState) (a b : List (BEvent × Bool)) :
    bootstrapRun s (a ++ b)
      = ((bootstrapRun (bootstrapRun s a).1 b).1,
         (bootstrapRun s a).2.1 ++ (bootstrapRun (bootstrapRun s a).1 b).2.1,
         (bootstrapRun s a).2.2 + (bootstrapRun (bootstrapRun s a).1 b).2.2) := by
  induction a generalizing s with
  | nil => simp [bootstrapRun]
  | cons p rest ih =>
    obtain ⟨e, ok⟩ := p
    simp [bootstrapRun, ih, Nat.add_assoc]

/-- Claim C3: across a whole lifetime of successful Create invocations
starting from an absent resource, the resource reaches ready with
exactly one external index-creation call; invoking apply(Create) twice
more on the then-ready resource reports Success both times, has no side
effect, and the lifetime's total creation-call count is still exactly
one. -/
theorem bootstrap_create_idempotent
    (evts : List (BEvent × Bool))
    (hcreate : ∀ p ∈ evts, p.1 = BEvent.create ∧ p.2 = true)
    (hne : evts ≠ []) :
    (bootstrapRun BState.absent evts).1 = BState.ready ∧
    (bootstrapRun BState.absent evts).2.2 = 1 ∧
    bootstrapApply BState.ready BEvent.create true
      = (BOutcome.success, BState.ready, 0) ∧
    (bootstrapRun BState.absent
        (evts ++ [(BEvent.create, true), (BEvent.create, true)])).2.1
      = (bootstrapRun BState.absent evts).2.1
          ++ [BOutcome.success, BOutcome.success] ∧
    (bootstrapRun BState.absent
        (evts ++ [(BEvent.create, true), (BEvent.create, true)])).2.2 = 1 := by
  obtain ⟨p, rest, rfl⟩ := List.exists_cons_of_ne_nil hne
  obtain ⟨e, ok⟩ := p
  obtain ⟨he, hok⟩ := hcreate (e, ok) (List.mem_cons_self _ _)
  simp only at he hok
  subst he
  subst hok
  have hrest : ∀ q ∈ rest, q.1 = BEvent.create :=
    fun q hq => (hcreate q (List.mem_cons_of_mem _ hq)).1
  have hready := bootstrapRun_ready_creates rest hrest
  have hmain : bootstrapRun BState.absent ((BEvent.create, true) :: rest)
      = (BState.ready,
         BOutcome.success :: List.replicate rest.length BOutcome.success, 1) := by
    simp [bootstrapRun, bootstrapApply, hready]
  have htwo : bootstrapRun BState.ready [(BEvent.create, true), (BEvent.create, true)]
      = (BState.ready, [BOutcome.success, BOutcome.success], 0) := rfl
  refine ⟨by rw [hmain], by rw [hmain], rfl, ?_, ?_⟩
  · simp [bootstrapRun, bootstrapApply, bootstrapRun_append, hready, htwo]
  · simp [bootstrapRun, bootstrapApply, bootstrapRun_append, hready, htwo]

/-- Claim C3 witness: a lifetime consisting of one successful Create
reaches ready with one creation call, and two further Creates both
report Success with the total still one. -/
theorem bootstrap_create_idempotent_witness :
    (bootstrapRun BState.absent [(BEvent.create, true)]).1 = BState.ready ∧
    (bootstrapRun BState.absent [(BEvent.create, true)]).2.2 = 1 ∧
    bootstrapApply BState.ready BEvent.create true
      = (BOutcome.success, BState.ready, 0) ∧
    (bootstrapRun BState.absent
        [(BEvent.create, true), (BEvent.create, true), (BEvent.create, true)]).2.1
      = (bootstrapRun BState.absent [(BEvent.create, true)]).2.1
          ++ [BOutcome.success, BOutcome.success] ∧
    (bootstrapRun BState.absent
        [(BEvent.create, true), (BEvent.create, true), (BEvent.create, true)]).2.2
      = 1 := by
  have h := bootstrap_create_idempotent [(BEvent.create, true)] (by decide) (by decide)
  simpa using h

/-- Claim C7: for both interleavings in which two concurrent Create
invocations for the same resource identity both arrive before the
in-flight operation completes, exactly one external creation call is
issued and both callers observe the same final outcome — the in-flight
operation's outcome as fixed by the external acknowledgment. -/
theorem concurrent_create_single_flight
    (ok : Bool) (sched : List ConcAction)
    (hsched : sched = [ConcAction.arrive 1, ConcAction.arrive 2, ConcAction.complete] ∨
      sched = [ConcAction.arrive 2, ConcAction.arrive 1, ConcAction.complete]) :
    (concRun ok sched).calls = 1 ∧
    (concRun ok sched).out1 = (concRun ok sched).out2 ∧
    (concRun ok sched).out1
      = some (if ok then BOutcome.success else BOutcome.failure) := by
  rcases hsched with rfl | rfl <;> cases ok <;> exact ⟨rfl, rfl, rfl⟩

/-- Claim C7 witness: the first interleaving with a succeeding external
acknowledgment issues one creation call and both callers observe
Success. -/
theorem concurrent_create_single_flight_witness :
    (concRun true [ConcAction.arrive 1, ConcAction.arrive 2, ConcAction.complete]).calls = 1 ∧
    (concRun true [ConcAction.arrive 1, ConcAction.arrive 2, ConcAction.complete]).out1
      = (concRun true [ConcAction.arrive 1, ConcAction.arrive 2, ConcAction.complete]).out2 ∧
    (concRun true [ConcAction.arrive 1, ConcAction.arrive 2, ConcAction.complete]).out1
      = some BOutcome.success :=
  concurrent_create_single_flight true
    [ConcAction.arrive 1, ConcAction.arrive 2, ConcAction.complete] (Or.inl rfl)

/-- Claim C9: the Context's functional update: with(k, v) yields a new
Context in which get(k) returns v, get of every other key returns what
it returned on the original, existing keys are never removed, and the
original Context is shared unchanged as the tail of the new one. -/
theorem context_with_frame
    (c : Context) (k v k' : String) (hne : k' ≠ k) :
    Context.get (Context.withKey c k v) k = some v ∧
    Context.get (Context.withKey c k v) k' = Context.get c k' ∧
    (Context.get c k' ≠ none → Context.get (Context.withKey c k v) k' ≠ none) ∧
    Context.withKey c k v = (k, v) :: c := by
  have h2 : Context.get (Context.withKey c k v) k' = Context.get c k' := by
    simp [Context.withKey, Context.get, hne.symm]
  refine ⟨by simp [Context.withKey, Context.get], h2, ?_, rfl⟩
  rw [h2]
  exact fun h => h

/-- Claim C9 witness: updating a one-entry Context at a fresh key leaves
the original key readable and unremoved. -/
theorem context_with_frame_witness :
    Context.get (Context.withKey [("a", "1")] "b" "2") "b" = some "2" ∧
    Context.get (Context.withKey [("a", "1")] "b" "2") "a"
      = Context.get [("a", "1")] "a" ∧
    (Context.get [("a", "1")] "a" ≠ none →
      Context.get (Context.withKey [("a", "1")] "b" "2") "a" ≠ none) ∧
    Context.withKey [("a", "1")] "b" "2" = ("b", "2") :: [("a", "1")] :=
  context_with_frame [("a", "1")] "b" "2" "a" (by decide)
